import Mathlib

/-!
Shallow embedding of the two source files of this repository:

* `stock_pick.py` — the swing-trade signal detector `detect_swing_trades`
  (44-period moving-average incline + support touches + bullish close +
  next-day breakout), and
* `backtest.py` — the day-by-day simulation driver (exit pass, entry pass
  with risk sizing and a capital ceiling, end-of-run force exits, charge
  and P&L bookkeeping, and the skip/enter/exit counters).

Modelling conventions:

* Prices, moving averages and capital are exact rationals (`ℚ`).  The
  Python source computes with IEEE floats; every claim under scrutiny is
  an exact arithmetic identity in the source text, so the embedding uses
  exact arithmetic.  Python's `round(x, 2)` becomes `round2`: rounding to
  a whole number of hundredths (round-half-up on exact rationals; the
  binary-float tie behaviour of Python's `round` differs only on exact
  ties, which none of the concrete inputs used below exercise).
* Dates are integers counting days from an epoch chosen to fall on a
  Monday, so `pandas.bdate_range` (plain Monday-to-Friday business days,
  no holiday calendar) becomes the predicate `d % 7 < 5`.
* `pd.DataFrame` frames become `List`s of records in ascending date
  order; `df.iloc[i]` becomes `List.getD i default` and membership of a
  date in an index becomes `findBar`.
* The `sort_values('entry_date')` + `groupby('entry_date')` pair of the
  driver processes, on each calendar day, exactly the signal rows whose
  `entry_date` equals that day; the embedding uses the equivalent
  per-day `List.filter`.
-/

set_option maxRecDepth 100000

namespace FortyFourMA

/-- Python `round(x, 2)` in the exact-rational model: round to hundredths. -/
def round2 (x : ℚ) : ℚ := (round (x * 100) : ℤ) / 100

/-! ### stock_pick.py — data model and configuration -/

/-- One daily OHLC bar (one row of the cached daily frame).  `open_` is the
`open` column (`open` is a Lean keyword). -/
structure Bar where
  date : ℤ
  open_ : ℚ
  high : ℚ
  low : ℚ
  close : ℚ
  deriving DecidableEq, Repr, Inhabited

def MA_PERIOD : ℕ := 44

def SUPPORT_TOLERANCE : ℚ := 5 / 1000

def MAX_TOUCH_DAYS : ℕ := 7

/-- One row of the frame after `df['ma44'] = df['close'].rolling(44).mean()`
and `df.dropna()`: the bar together with its 44-bar moving average. -/
structure Row where
  bar : Bar
  ma44 : ℚ
  deriving DecidableEq, Repr, Inhabited

/-- `df['ma44'] = df['close'].rolling(MA_PERIOD).mean(); df.dropna()`:
original row `j` survives iff `MA_PERIOD ≤ j + 1`, carrying the mean of
the `MA_PERIOD` closes ending at `j`. -/
def withMA (bars : List Bar) : List Row :=
  (List.range bars.length).filterMap fun j =>
    if MA_PERIOD ≤ j + 1 then
      some { bar := bars.getD j default,
             ma44 := (((List.range MA_PERIOD).map fun k =>
                 (bars.getD (j + 1 - MA_PERIOD + k) default).close).sum)
               / (MA_PERIOD : ℚ) }
    else none

/-- The support-touch test for one candidate row of the touch window
(stock_pick.py line 94). -/
def touches (r : Row) : Bool :=
  decide (r.bar.low ≤ r.ma44 * (1 + SUPPORT_TOLERANCE)) &&
  decide (r.ma44 * (1 - SUPPORT_TOLERANCE) ≤ r.bar.high)

/-- All filters of the scan-loop body at post-dropna index `i`, in source
order: loop bounds (lines 82), MA incline (87), support touch in the last
`MAX_TOUCH_DAYS` rows (91–98), bullish close above the MA (101–103), and
next-day breakout above `today.high * 1.005` (106–108). -/
def passes (bars : List Bar) (i : ℕ) : Bool :=
  decide (MA_PERIOD + MAX_TOUCH_DAYS ≤ i)
  && decide (i + 1 < (withMA bars).length)
  && decide (((withMA bars).getD (i - 1) default).ma44
        < ((withMA bars).getD i default).ma44)
  && ((List.range' (i - MAX_TOUCH_DAYS) MAX_TOUCH_DAYS).any fun j =>
        touches ((withMA bars).getD j default))
  && decide (((withMA bars).getD i default).bar.open_
        < ((withMA bars).getD i default).bar.close)
  && decide (((withMA bars).getD i default).ma44
        < ((withMA bars).getD i default).bar.close)
  && decide (((withMA bars).getD i default).bar.high * (201 / 200)
        < ((withMA bars).getD (i + 1) default).bar.high)

/-- One candidate trade row, exactly the dict appended by the detector. -/
structure Signal where
  symbol : String
  instrument_key : String
  signal_date : ℤ
  entry_date : ℤ
  entry_price : ℚ
  stop_loss : ℚ
  target : ℚ
  deriving DecidableEq, Repr, Inhabited

/-- The trade parameters appended for a qualifying index `i`
(stock_pick.py lines 110–124): `entry_price = round(today.high*1.005, 2)`,
`sl = min(prev.low, today.low)` (unrounded), `risk = entry_price - sl`,
`target = entry_price + 2*risk`, with `entry_price`, `sl` and `target`
each passed through `round(·, 2)` in the emitted dict. -/
def mkSignalAt (symbol inst_key : String) (bars : List Bar) (i : ℕ) : Signal :=
  let df := withMA bars
  let today := df.getD i default
  let prev := df.getD (i - 1) default
  let nxt := df.getD (i + 1) default
  let entry_price := round2 (today.bar.high * (201 / 200))
  let sl := min prev.bar.low today.bar.low
  let risk := entry_price - sl
  let target := entry_price + 2 * risk
  { symbol := symbol, instrument_key := inst_key,
    signal_date := today.bar.date, entry_date := nxt.bar.date,
    entry_price := round2 entry_price, stop_loss := round2 sl,
    target := round2 target }

/-- Body of the scan loop at index `i`: `some` exactly when all filters pass. -/
def sigAt (symbol inst_key : String) (bars : List Bar) (i : ℕ) : Option Signal :=
  if passes bars i then some (mkSignalAt symbol inst_key bars i) else none

/-- `detect_swing_trades` (stock_pick.py lines 72–127): scan the
post-dropna frame indices `MA_PERIOD + MAX_TOUCH_DAYS ≤ i < len(df) - 1`
(the range bound is folded into `passes`) and collect the qualifying
trade rows in ascending order. -/
def detect_swing_trades (symbol inst_key : String) (bars : List Bar) : List Signal :=
  (List.range (withMA bars).length).filterMap (sigAt symbol inst_key bars)

/-! ### backtest.py — configuration, state, and the simulation driver -/

def INITIAL_CAPITAL : ℚ := 200000

def MAX_RISK_PER_TRADE : ℚ := 4000

def LOOKAHEAD_DAYS : ℤ := 80

def MAX_HOLD_DAYS : ℤ := 42

def EXIT_NO_TARGET_DAYS : ℤ := 40

/-- Exit reasons written into the trade ledger.  `SL` and `NO_TARGET` are
the source's strings verbatim; `TARGET_HIT` stands for the source's
`'TARGET HIT 🎯🎯🎯'` and `EOD_EXIT` for the end-of-run force exit. -/
inductive ExitReason
  | SL
  | TARGET_HIT
  | NO_TARGET
  | EOD_EXIT
  deriving DecidableEq, Repr, Inhabited

/-- One open position, exactly the dict built at entry (backtest.py lines
146–155).  `price_df` is the instrument's bar frame sliced from the entry
date on (`d.index >= today`). -/
structure Position where
  symbol : String
  entry_date : ℤ
  entry_price : ℚ
  stop_loss : ℚ
  target : ℚ
  qty : ℕ
  hit : Bool
  price_df : List Bar
  deriving DecidableEq, Repr, Inhabited

/-- One row of the completed-trades ledger (backtest.py lines 106–117). -/
structure TradeRecord where
  symbol : String
  entry_date : ℤ
  exit_date : ℤ
  entry_price : ℚ
  exit_price : ℚ
  qty : ℕ
  reason : ExitReason
  charges : ℚ
  pnl : ℚ
  holding_days : ℤ
  deriving DecidableEq, Repr, Inhabited

/-- The driver's mutable state: capital, open positions, the ledger, and
the module-level counters. -/
structure SimState where
  capital : ℚ
  open_positions : List Position
  completed : List TradeRecord
  skips_already_holded : ℕ
  skips_no_cap : ℕ
  trades_entered : ℕ
  trades_exited : ℕ
  deriving DecidableEq, Repr

def initState : SimState :=
  { capital := INITIAL_CAPITAL, open_positions := [], completed := [],
    skips_already_holded := 0, skips_no_cap := 0,
    trades_entered := 0, trades_exited := 0 }

/-- `calculate_charges` (backtest.py lines 26–30): stamp duty 0.015% on the
buy value, STT 0.1% on buy plus sell value, and a fixed 14.75 fee. -/
def calculate_charges (buy_val sell_val : ℚ) : ℚ :=
  15 / 100000 * buy_val + 1 / 1000 * (sell_val + buy_val) + 1475 / 100

/-- `today in df.index` / `df.loc[today]` on a date-indexed frame. -/
def findBar (df : List Bar) (d : ℤ) : Option Bar :=
  df.find? fun b => decide (b.date = d)

/-- Per-day exit evaluation of one open position (backtest.py lines
62–97): no bar for today is a no-op; otherwise the stop-loss check comes
first, then first-target-hit (which also sets the `hit` flag), then the
no-target time exit.  Returns the fired exit (price, reason), if any,
and the position with its `hit` flag as updated by the evaluation.  The
trailing-target and max-hold branches of the source are commented out
and so absent here. -/
def checkExit (pos : Position) (today : ℤ) : Option (ℚ × ExitReason) × Position :=
  match findBar pos.price_df today with
  | none => (none, pos)
  | some row =>
    let days_held := today - pos.entry_date
    if row.low ≤ pos.stop_loss then
      (some (pos.stop_loss, ExitReason.SL), pos)
    else if pos.hit = false ∧ pos.target ≤ row.high then
      (some (pos.target, ExitReason.TARGET_HIT), { pos with hit := true })
    else if pos.hit = false ∧ EXIT_NO_TARGET_DAYS ≤ days_held then
      (some (row.low, ExitReason.NO_TARGET), pos)
    else (none, pos)

/-- Exit bookkeeping for one open position on one day (backtest.py lines
99–121): on an exit, append the trade record (charges and pnl rounded to
2 decimals only in the record), credit `sell_val - charges` to capital
(unrounded) and drop the position; otherwise carry it forward.  The fold
rebuilds the surviving open list in order, which models removal from the
list snapshot taken at line 62. -/
def exitStep (today : ℤ) (acc : SimState) (pos : Position) : SimState :=
  match checkExit pos today with
  | (none, pos') => { acc with open_positions := acc.open_positions ++ [pos'] }
  | (some (exit_price, reason), pos') =>
    let buy_val := pos'.entry_price * (pos'.qty : ℚ)
    let sell_val := exit_price * (pos'.qty : ℚ)
    let charges := calculate_charges buy_val sell_val
    let pnl := sell_val - buy_val - charges
    { acc with
      completed := acc.completed ++
        [{ symbol := pos'.symbol, entry_date := pos'.entry_date,
           exit_date := today, entry_price := pos'.entry_price,
           exit_price := exit_price, qty := pos'.qty, reason := reason,
           charges := round2 charges, pnl := round2 pnl,
           holding_days := today - pos'.entry_date }],
      capital := acc.capital + (sell_val - charges),
      trades_exited := acc.trades_exited + 1 }

/-- Pass 1 of a calendar day: evaluate every currently open position. -/
def exitPass (today : ℤ) (st : SimState) : SimState :=
  st.open_positions.foldl (exitStep today) { st with open_positions := [] }

/-- Pass 2 of a calendar day, one signal row due today (backtest.py lines
125–159): skip if the symbol is already held; size by
`qty = int(MAX_RISK_PER_TRADE / risk_per_share)` when the risk is
positive (0 otherwise); skip if `qty < 1 or cost > capital`; otherwise
deduct the cost and open the position. -/
def entryStep (today : ℤ) (priceData : String → List Bar)
    (st : SimState) (call : Signal) : SimState :=
  if st.open_positions.any (fun p => p.symbol == call.symbol) then
    { st with skips_already_holded := st.skips_already_holded + 1 }
  else
    let entry_p := call.entry_price
    let sl := call.stop_loss
    let risk_sh := entry_p - sl
    let qty : ℕ := if 0 < risk_sh then (⌊MAX_RISK_PER_TRADE / risk_sh⌋).toNat else 0
    let cost := entry_p * (qty : ℚ)
    if qty < 1 ∨ st.capital < cost then
      { st with skips_no_cap := st.skips_no_cap + 1 }
    else
      { st with
        capital := st.capital - cost,
        open_positions := st.open_positions ++
          [{ symbol := call.symbol, entry_date := today, entry_price := entry_p,
             stop_loss := sl, target := call.target, qty := qty, hit := false,
             price_df := (priceData call.instrument_key).filter fun b =>
               decide (today ≤ b.date) }],
        trades_entered := st.trades_entered + 1 }

/-- One calendar day of the backtest loop (backtest.py lines 60–159):
exits first, then the entries whose `entry_date` equals today. -/
def dayStep (signals : List Signal) (priceData : String → List Bar)
    (st : SimState) (today : ℤ) : SimState :=
  (signals.filter fun c => decide (c.entry_date = today)).foldl
    (entryStep today priceData) (exitPass today st)

/-- `pandas.bdate_range` day test: Monday-to-Friday; day 0 is a Monday. -/
def isBDay (d : ℤ) : Bool := decide (d % 7 < 5)

/-- `pd.bdate_range(start, end)`: the business days in `[s, e]`. -/
def bdateRange (s e : ℤ) : List ℤ :=
  ((List.range (e + 1 - s).toNat).map fun k : ℕ => s + (k : ℤ)).filter isBDay

/-- The trading calendar (backtest.py lines 38–40): business days from the
earliest `entry_date` to the latest plus `LOOKAHEAD_DAYS`. -/
def tradeCalendar (signals : List Signal) : List ℤ :=
  bdateRange (((signals.map Signal.entry_date).min?).getD 0)
    ((((signals.map Signal.entry_date).max?).getD 0) + LOOKAHEAD_DAYS)

/-- Force-exit of one leftover position at the horizon (backtest.py lines
163–192): exit at the final date's open, falling back to the last
available bar's open.  (`df.iloc[-1]` raises in the source when the
sliced frame is empty; the `getD default` fallback below is unreachable
whenever price data reaches each accepted signal's entry date, which the
theorems assume.)  The source does not remove force-exited positions
from the open list, and neither does this. -/
def forceExitStep (final_date : ℤ) (acc : SimState) (pos : Position) : SimState :=
  let exit_price :=
    match findBar pos.price_df final_date with
    | some row => row.open_
    | none => (pos.price_df.getLast?.getD default).open_
  let buy_val := pos.entry_price * (pos.qty : ℚ)
  let sell_val := exit_price * (pos.qty : ℚ)
  let charges := calculate_charges buy_val sell_val
  let pnl := sell_val - buy_val - charges
  { acc with
    completed := acc.completed ++
      [{ symbol := pos.symbol, entry_date := pos.entry_date,
         exit_date := final_date, entry_price := pos.entry_price,
         exit_price := exit_price, qty := pos.qty,
         reason := ExitReason.EOD_EXIT,
         charges := round2 charges, pnl := round2 pnl,
         holding_days := final_date - pos.entry_date }],
    capital := acc.capital + (sell_val - charges),
    trades_exited := acc.trades_exited + 1 }

def forceExit (final_date : ℤ) (st : SimState) : SimState :=
  st.open_positions.foldl (forceExitStep final_date) st

/-- The whole simulation run of backtest.py: fold the daily loop over the
trading calendar, then force-exit the remaining positions at the last
calendar date. -/
def runBacktest (signals : List Signal) (priceData : String → List Bar) : SimState :=
  let all_dates := tradeCalendar signals
  forceExit (all_dates.getLastD 0) (all_dates.foldl (dayStep signals priceData) initState)

/-! ### Arithmetic facts about `round2` -/

lemma round2_int_div (m : ℤ) : round2 ((m : ℚ) / 100) = (m : ℚ) / 100 := by
  unfold round2
  have h : ((m : ℚ) / 100) * 100 = (m : ℚ) := by field_simp
  rw [h, round_intCast]

lemma round2_exists_int (x : ℚ) : ∃ m : ℤ, round2 x = (m : ℚ) / 100 :=
  ⟨round (x * 100), rfl⟩

lemma round2_round2 (x : ℚ) : round2 (round2 x) = round2 x := by
  obtain ⟨m, hm⟩ := round2_exists_int x
  rw [hm, round2_int_div]

lemma lt_round2_add_half (x : ℚ) : x < round2 x + 1 / 200 := by
  unfold round2
  rw [round_eq]
  have h := Int.sub_one_lt_floor (x * 100 + 1 / 2)
  have h2 : x * 100 - 1 / 2 < ((⌊x * 100 + 1 / 2⌋ : ℤ) : ℚ) := by
    push_cast at h ⊢
    linarith
  linarith

lemma round2_mono {x y : ℚ} (h : x ≤ y) : round2 x ≤ round2 y := by
  unfold round2
  have hf : round (x * 100) ≤ round (y * 100) := by
    rw [round_eq, round_eq]
    exact Int.floor_mono (by linarith)
  have hq : ((round (x * 100) : ℤ) : ℚ) ≤ ((round (y * 100) : ℤ) : ℚ) := by
    exact_mod_cast hf
  linarith

/-- If the rounded stop-loss sits strictly below a whole-hundredths entry
price, the rounded 2:1 target sits strictly above the entry price. -/
lemma round2_target_gt {e sl : ℚ} (me : ∃ m : ℤ, e = (m : ℚ) / 100)
    (h : round2 sl < e) : e < round2 (e + 2 * (e - sl)) := by
  obtain ⟨m, rfl⟩ := me
  obtain ⟨k, hk⟩ := round2_exists_int sl
  rw [hk] at h
  have hkm : k < m := by
    have hq : (k : ℚ) < (m : ℚ) := by linarith
    exact_mod_cast hq
  have hk1 : (k : ℚ) + 1 ≤ (m : ℚ) := by exact_mod_cast hkm
  have hsl : sl < (k : ℚ) / 100 + 1 / 200 := by
    have h0 := lt_round2_add_half sl
    rw [hk] at h0
    exact h0
  have hmain : ((m + 1 : ℤ) : ℚ) / 100 ≤ (m : ℚ) / 100 + 2 * ((m : ℚ) / 100 - sl) := by
    push_cast
    linarith
  have h2 : ((m + 1 : ℤ) : ℚ) / 100 ≤ round2 ((m : ℚ) / 100 + 2 * ((m : ℚ) / 100 - sl)) := by
    calc ((m + 1 : ℤ) : ℚ) / 100 = round2 (((m + 1 : ℤ) : ℚ) / 100) := (round2_int_div _).symm
    _ ≤ _ := round2_mono hmain
  have h3 : (m : ℚ) / 100 < ((m + 1 : ℤ) : ℚ) / 100 := by push_cast; linarith
  linarith

/-- A price that is a whole number of hundredths (a whole number of paise /
cents). -/
def isCent (x : ℚ) : Prop := (x * 100).den = 1

instance (x : ℚ) : Decidable (isCent x) := by unfold isCent; infer_instance

lemma isCent_exists {x : ℚ} (h : isCent x) : ∃ m : ℤ, x = (m : ℚ) / 100 := by
  refine ⟨(x * 100).num, ?_⟩
  have h1 : (((x * 100).num : ℤ) : ℚ) = x * 100 :=
    Rat.coe_int_num_of_den_eq_one h
  rw [h1]
  ring

lemma cent_add_le {a b : ℚ} (ha : ∃ m : ℤ, a = (m : ℚ) / 100)
    (hb : ∃ m : ℤ, b = (m : ℚ) / 100) (h : a < b) : a + 1 / 100 ≤ b := by
  obtain ⟨p, rfl⟩ := ha
  obtain ⟨q, rfl⟩ := hb
  have hpq : p < q := by
    have hq : (p : ℚ) < (q : ℚ) := by linarith
    exact_mod_cast hq
  have h1 : (p : ℚ) + 1 ≤ (q : ℚ) := by exact_mod_cast hpq
  linarith

/-- A well-formed exchange bar: nonnegative low, `low ≤ open`,
`close ≤ high`, and low/high quoted in whole hundredths. -/
def wfBar (b : Bar) : Prop :=
  0 ≤ b.low ∧ b.low ≤ b.open_ ∧ b.close ≤ b.high ∧ isCent b.low ∧ isCent b.high

instance (b : Bar) : Decidable (wfBar b) := by unfold wfBar; infer_instance

/-! ### List helpers -/

lemma filterMap_eq_singleton_of {β : Type} (f : ℕ → Option β) (l : List ℕ)
    (i : ℕ) (b : β) (hnd : l.Nodup) (hi : i ∈ l) (hf : f i = some b)
    (ho : ∀ j, j ≠ i → f j = none) : l.filterMap f = [b] := by
  induction l with
  | nil => cases hi
  | cons x xs ih =>
    rcases List.nodup_cons.mp hnd with ⟨hx, hnd'⟩
    by_cases hxi : x = i
    · subst hxi
      have hnil : xs.filterMap f = [] :=
        List.filterMap_eq_nil_iff.mpr fun a ha => ho a fun hai => hx (hai ▸ ha)
      simp [List.filterMap_cons, hf, hnil]
    · have hfx : f x = none := ho x hxi
      have hi' : i ∈ xs := by
        rcases List.mem_cons.mp hi with h1 | h1
        · exact absurd h1.symm hxi
        · exact h1
      simp [List.filterMap_cons, hfx]
      exact ih hnd' hi'

/-! ### Characterisation of the detector output -/

lemma sigAt_eq_some {symbol inst_key : String} {bars : List Bar} {i : ℕ}
    {s : Signal} (h : sigAt symbol inst_key bars i = some s) :
    passes bars i = true ∧ s = mkSignalAt symbol inst_key bars i := by
  unfold sigAt at h
  split at h
  · next hp => exact ⟨hp, (Option.some.inj h).symm⟩
  · cases h

lemma mem_detect {symbol inst_key : String} {bars : List Bar} {s : Signal}
    (h : s ∈ detect_swing_trades symbol inst_key bars) :
    ∃ i, passes bars i = true ∧ s = mkSignalAt symbol inst_key bars i := by
  unfold detect_swing_trades at h
  obtain ⟨i, _, hf⟩ := List.mem_filterMap.mp h
  exact ⟨i, sigAt_eq_some hf⟩

lemma passes_bounds {bars : List Bar} {i : ℕ} (hp : passes bars i = true) :
    MA_PERIOD + MAX_TOUCH_DAYS ≤ i ∧ i + 1 < (withMA bars).length := by
  unfold passes at hp
  simp only [Bool.and_eq_true, decide_eq_true_eq] at hp
  exact ⟨hp.1.1.1.1.1.1, hp.1.1.1.1.1.2⟩

lemma passes_bullish {bars : List Bar} {i : ℕ} (hp : passes bars i = true) :
    ((withMA bars).getD i default).bar.open_ < ((withMA bars).getD i default).bar.close := by
  unfold passes at hp
  simp only [Bool.and_eq_true, decide_eq_true_eq] at hp
  exact hp.1.1.2

lemma detect_eq_singleton {symbol inst_key : String} {bars : List Bar} {i : ℕ}
    (hp : passes bars i = true) (hu : ∀ j, passes bars j = true → j = i) :
    detect_swing_trades symbol inst_key bars = [mkSignalAt symbol inst_key bars i] := by
  unfold detect_swing_trades
  refine filterMap_eq_singleton_of _ _ i _ (List.nodup_range _) ?_ ?_ ?_
  · exact List.mem_range.mpr (by have := (passes_bounds hp).2; omega)
  · unfold sigAt
    simp [hp]
  · intro j hj
    unfold sigAt
    by_cases hpj : passes bars j = true
    · exact absurd (hu j hpj) hj
    · simp [hpj]

lemma mkSignalAt_fields (symbol inst_key : String) (bars : List Bar) (i : ℕ) :
    (mkSignalAt symbol inst_key bars i).entry_price
        = round2 (round2 (((withMA bars).getD i default).bar.high * (201 / 200)))
    ∧ (mkSignalAt symbol inst_key bars i).stop_loss
        = round2 (min ((withMA bars).getD (i - 1) default).bar.low
            ((withMA bars).getD i default).bar.low)
    ∧ (mkSignalAt symbol inst_key bars i).target
        = round2 (round2 (((withMA bars).getD i default).bar.high * (201 / 200))
            + 2 * (round2 (((withMA bars).getD i default).bar.high * (201 / 200))
              - min ((withMA bars).getD (i - 1) default).bar.low
                ((withMA bars).getD i default).bar.low)) :=
  ⟨rfl, rfl, rfl⟩

lemma withMA_bar_mem {bars : List Bar} {i : ℕ} (h : i < (withMA bars).length) :
    ((withMA bars).getD i default).bar ∈ bars := by
  have hmem : (withMA bars).getD i default ∈ withMA bars := by
    rw [List.getD_eq_getElem _ _ h]
    exact List.getElem_mem h
  rw [withMA] at hmem
  obtain ⟨j, hj, hfj⟩ := List.mem_filterMap.mp hmem
  have hjlen : j < bars.length := List.mem_range.mp hj
  split at hfj
  · have heq := (Option.some.inj hfj).symm
    rw [withMA, heq]
    show bars.getD j default ∈ bars
    rw [List.getD_eq_getElem _ _ hjlen]
    exact List.getElem_mem hjlen
  · cases hfj

/-! ### Concrete detector inputs

The detector's scan only starts at post-dropna index `MA_PERIOD +
MAX_TOUCH_DAYS = 51`, i.e. original index 94, so a minimal run needs 96
bars.  `barsA` triggers exactly one signal whose raw stop `99.004` is not
a whole number of hundredths; `barsB` is a sub-rupee price series whose
signal collapses to `entry = stop = target = 0.40` after rounding;
`barsC` is `barsA` with cent-quoted prices throughout. -/

def flatBar100 (d : ℤ) : Bar :=
  { date := d, open_ := 100, high := 100, low := 100, close := 100 }

def barsA : List Bar :=
  (List.range 96).map fun j =>
    if j = 93 then { date := j, open_ := 100, high := 101, low := 24751/250, close := 100 }
    else if j = 94 then { date := j, open_ := 100, high := 112, low := 100, close := 110 }
    else if j = 95 then { date := j, open_ := 100, high := 120, low := 100, close := 100 }
    else flatBar100 j

/-- The one signal of `barsA`: entry `112.56`, stop `round2 99.004 = 99`,
target `round2 139.672 = 139.67`. -/
def sigA : Signal :=
  { symbol := "A", instrument_key := "K", signal_date := 94, entry_date := 95,
    entry_price := 2814/25, stop_loss := 99, target := 13967/100 }

def flatBar39 (d : ℤ) : Bar :=
  { date := d, open_ := 39/100, high := 39/100, low := 39/100, close := 39/100 }

def barsB : List Bar :=
  (List.range 96).map fun j =>
    if j = 93 then { date := j, open_ := 199/500, high := 399/1000, low := 199/500, close := 199/500 }
    else if j = 94 then { date := j, open_ := 199/500, high := 2/5, low := 199/500, close := 2/5 }
    else if j = 95 then { date := j, open_ := 2/5, high := 9/20, low := 2/5, close := 2/5 }
    else flatBar39 j

/-- The one signal of `barsB`: all three prices round to `0.40`. -/
def sigB : Signal :=
  { symbol := "B", instrument_key := "K", signal_date := 94, entry_date := 95,
    entry_price := 2/5, stop_loss := 2/5, target := 2/5 }

def barsC : List Bar :=
  (List.range 96).map fun j =>
    if j = 93 then { date := j, open_ := 100, high := 101, low := 99, close := 100 }
    else if j = 94 then { date := j, open_ := 100, high := 112, low := 100, close := 110 }
    else if j = 95 then { date := j, open_ := 100, high := 120, low := 100, close := 100 }
    else flatBar100 j

/-- The one signal of `barsC`: entry `112.56`, stop `99`, target `139.68`. -/
def sigC : Signal :=
  { symbol := "C", instrument_key := "K", signal_date := 94, entry_date := 95,
    entry_price := 2814/25, stop_loss := 99, target := 3492/25 }

/-! ### Claim C1 -/

/-- C1, counterexample: on `barsA` the detector emits exactly one signal;
its `entry_price` and `stop_loss` satisfy the claimed formulas, but its
`target` (139.67) differs from
`entry_price + 2 * (entry_price - stop_loss)` whether or not that value
(139.68) is rounded, because the source computes the risk from the
unrounded `min(prev.low, today.low) = 99.004`, not from the rounded
`stop_loss = 99.00` recorded in the signal. -/
theorem c1_target_rounding_counterexample :
    detect_swing_trades "A" "K" barsA = [sigA]
    ∧ sigA.entry_price = round2 (((withMA barsA).getD 51 default).bar.high * (201 / 200))
    ∧ sigA.stop_loss = round2 (min ((withMA barsA).getD 50 default).bar.low
        ((withMA barsA).getD 51 default).bar.low)
    ∧ sigA.target ≠ round2 (sigA.entry_price + 2 * (sigA.entry_price - sigA.stop_loss))
    ∧ sigA.target ≠ sigA.entry_price + 2 * (sigA.entry_price - sigA.stop_loss) := by
  refine ⟨?_, ?_, ?_, ?_, ?_⟩
  · with_unfolding_all rfl
  · with_unfolding_all rfl
  · with_unfolding_all rfl
  · exact of_decide_eq_false (by with_unfolding_all rfl)
  · exact of_decide_eq_false (by with_unfolding_all rfl)

/-- C1 (amended): if the detector's filters pass exactly at post-dropna
index `i`, the run emits exactly that one signal, with
`entry_price = round2 (today.high * 1.005)`,
`stop_loss = round2 (min prev.low today.low)`, and
`target = round2 (entry_price + 2 * (entry_price - sl_raw))` where
`sl_raw = min prev.low today.low` is the stop **before** rounding (the
recorded target can differ by a cent from the one recomputed from the
rounded stop-loss). -/
theorem c1_signal_parameters (symbol inst_key : String) (bars : List Bar) (i : ℕ)
    (hp : passes bars i = true) (hu : ∀ j, passes bars j = true → j = i) :
    detect_swing_trades symbol inst_key bars = [mkSignalAt symbol inst_key bars i]
    ∧ (mkSignalAt symbol inst_key bars i).entry_price
        = round2 (((withMA bars).getD i default).bar.high * (201 / 200))
    ∧ (mkSignalAt symbol inst_key bars i).stop_loss
        = round2 (min ((withMA bars).getD (i - 1) default).bar.low
            ((withMA bars).getD i default).bar.low)
    ∧ (mkSignalAt symbol inst_key bars i).target
        = round2 ((mkSignalAt symbol inst_key bars i).entry_price
            + 2 * ((mkSignalAt symbol inst_key bars i).entry_price
              - min ((withMA bars).getD (i - 1) default).bar.low
                ((withMA bars).getD i default).bar.low)) := by
  have hf := mkSignalAt_fields symbol inst_key bars i
  have hidem := round2_round2 (((withMA bars).getD i default).bar.high * (201 / 200))
  refine ⟨detect_eq_singleton hp hu, ?_, hf.2.1, ?_⟩
  · rw [hf.1, hidem]
  · rw [hf.1, hidem, hf.2.2]

/-- Witness for C1 (amended) at `barsA`, `i = 51`. -/
theorem c1_signal_parameters_witness :
    (passes barsA 51 = true)
    ∧ (∀ j, passes barsA j = true → j = 51)
    ∧ detect_swing_trades "A" "K" barsA = [mkSignalAt "A" "K" barsA 51]
    ∧ (mkSignalAt "A" "K" barsA 51).entry_price
        = round2 (((withMA barsA).getD 51 default).bar.high * (201 / 200))
    ∧ (mkSignalAt "A" "K" barsA 51).stop_loss
        = round2 (min ((withMA barsA).getD 50 default).bar.low
            ((withMA barsA).getD 51 default).bar.low)
    ∧ (mkSignalAt "A" "K" barsA 51).target
        = round2 ((mkSignalAt "A" "K" barsA 51).entry_price
            + 2 * ((mkSignalAt "A" "K" barsA 51).entry_price
              - min ((withMA barsA).getD 50 default).bar.low
                ((withMA barsA).getD 51 default).bar.low)) := by
  have hp : passes barsA 51 = true := by with_unfolding_all rfl
  have hu : ∀ j, passes barsA j = true → j = 51 := by
    intro j hj
    have hb := passes_bounds hj
    have hlen : (withMA barsA).length = 53 := by with_unfolding_all rfl
    have hc : MA_PERIOD + MAX_TOUCH_DAYS = 51 := rfl
    omega
  have h := c1_signal_parameters "A" "K" barsA 51 hp hu
  exact ⟨hp, hu, h.1, h.2.1, h.2.2.1, h.2.2.2⟩

/-! ### Claim C8 -/

/-- C8, counterexample: the detector *can* emit a signal with
`entry_price ≤ stop_loss`.  On the sub-rupee series `barsB` the raw stop
is `0.398` and the raw entry `0.402`; both round to `0.40`, so the
emitted signal has `entry_price = stop_loss = target = 0.40` and the
claimed strict ordering fails. -/
theorem c8_entry_le_stop_counterexample :
    detect_swing_trades "B" "K" barsB = [sigB]
    ∧ sigB.entry_price ≤ sigB.stop_loss
    ∧ ¬ (sigB.stop_loss < sigB.entry_price ∧ sigB.entry_price < sigB.target) := by
  refine ⟨?_, ?_, ?_⟩
  · with_unfolding_all rfl
  · exact of_decide_eq_true (by with_unfolding_all rfl)
  · exact of_decide_eq_false (by with_unfolding_all rfl)

/-- C8 (amended): on bar sequences whose bars are well formed and quoted
in whole hundredths (nonnegative cent-priced lows and highs with
`low ≤ open` and `close ≤ high`), every emitted signal satisfies
`stop_loss < entry_price < target`; on arbitrary price data the rounding
to hundredths can collapse `entry_price` onto `stop_loss`. -/
theorem c8_price_ordering (symbol inst_key : String) (bars : List Bar)
    (s : Signal) (hwf : ∀ b ∈ bars, wfBar b)
    (hs : s ∈ detect_swing_trades symbol inst_key bars) :
    s.stop_loss < s.entry_price ∧ s.entry_price < s.target := by
  obtain ⟨i, hp, rfl⟩ := mem_detect hs
  have hb := passes_bounds hp
  have hilen : i < (withMA bars).length := by omega
  have hplen : i - 1 < (withMA bars).length := by omega
  have hoc := passes_bullish hp
  have hf := mkSignalAt_fields symbol inst_key bars i
  have hwt : wfBar ((withMA bars).getD i default).bar := hwf _ (withMA_bar_mem hilen)
  have hwp : wfBar ((withMA bars).getD (i - 1) default).bar := hwf _ (withMA_bar_mem hplen)
  set today := (withMA bars).getD i default with htoday
  set prev := (withMA bars).getD (i - 1) default with hprev
  obtain ⟨hL0, hLo, hch, hcentLt, hcentHt⟩ := hwt
  obtain ⟨_, _, _, hcentLp, _⟩ := hwp
  have hLH : today.bar.low < today.bar.high := lt_of_le_of_lt hLo (lt_of_lt_of_le hoc hch)
  have hslle : min prev.bar.low today.bar.low ≤ today.bar.low := min_le_right _ _
  have hcent_sl : ∃ m : ℤ, min prev.bar.low today.bar.low = (m : ℚ) / 100 := by
    rcases min_cases prev.bar.low today.bar.low with ⟨hmin, _⟩ | ⟨hmin, _⟩
    · rw [hmin]; exact isCent_exists hcentLp
    · rw [hmin]; exact isCent_exists hcentLt
  have hgap : today.bar.low + 1 / 100 ≤ today.bar.high :=
    cent_add_le (isCent_exists hcentLt) (isCent_exists hcentHt) hLH
  have hh0 : (0 : ℚ) ≤ today.bar.high := le_trans hL0 (le_of_lt hLH)
  have hX : today.bar.high ≤ today.bar.high * (201 / 200) := by nlinarith
  have hhex : round2 today.bar.high = today.bar.high := by
    obtain ⟨m, hm⟩ := isCent_exists hcentHt
    rw [hm, round2_int_div]
  have he0 : today.bar.high ≤ round2 (today.bar.high * (201 / 200)) := by
    calc today.bar.high = round2 today.bar.high := hhex.symm
    _ ≤ _ := round2_mono hX
  have hslex : round2 (min prev.bar.low today.bar.low) = min prev.bar.low today.bar.low := by
    obtain ⟨m, hm⟩ := hcent_sl
    rw [hm, round2_int_div]
  have he_field : (mkSignalAt symbol inst_key bars i).entry_price
      = round2 (today.bar.high * (201 / 200)) := by
    rw [hf.1, round2_round2]
  have hs_field : (mkSignalAt symbol inst_key bars i).stop_loss
      = min prev.bar.low today.bar.low := by
    rw [hf.2.1, hslex]
  have hlt : round2 (min prev.bar.low today.bar.low)
      < round2 (today.bar.high * (201 / 200)) := by
    rw [hslex]
    linarith
  constructor
  · rw [he_field, hs_field]
    linarith [hslex ▸ hlt]
  · rw [he_field, hf.2.2]
    exact round2_target_gt (round2_exists_int _) hlt

/-- Witness for C8 (amended) at the cent-priced series `barsC`. -/
theorem c8_price_ordering_witness :
    (∀ b ∈ barsC, wfBar b)
    ∧ sigC ∈ detect_swing_trades "C" "K" barsC
    ∧ sigC.stop_loss < sigC.entry_price ∧ sigC.entry_price < sigC.target := by
  have hwf : ∀ b ∈ barsC, wfBar b := of_decide_eq_true (by with_unfolding_all rfl)
  have hdet : detect_swing_trades "C" "K" barsC = [sigC] := by with_unfolding_all rfl
  have hmem : sigC ∈ detect_swing_trades "C" "K" barsC := by
    rw [hdet]
    exact List.mem_singleton_self _
  have h := c8_price_ordering "C" "K" barsC sigC hwf hmem
  exact ⟨hwf, hmem, h.1, h.2⟩

/-! ### Claims C2, C7, C9 — the per-day exit evaluation -/

/-- C2: the per-day exit evaluation returns at most one exit (its result
type is an `Option`), and the stop-loss check has precedence: whenever
the day's bar exists and `low ≤ stop_loss`, the position exits at
`stop_loss` with reason `SL`, regardless of `high`, `target`, the `hit`
flag or the days held. -/
theorem c2_stop_loss_precedence (pos : Position) (today : ℤ) (row : Bar)
    (hbar : findBar pos.price_df today = some row)
    (hlow : row.low ≤ pos.stop_loss) :
    checkExit pos today = (some (pos.stop_loss, ExitReason.SL), pos) := by
  unfold checkExit
  rw [hbar]
  simp [hlow]

def barSL : Bar := { date := 5, open_ := 100, high := 125, low := 85, close := 120 }

def posZ : Position :=
  { symbol := "Z", entry_date := 0, entry_price := 100, stop_loss := 90,
    target := 120, qty := 10, hit := false, price_df := [barSL] }

/-- Witness for C2: `stop_loss = 90`, `target = 120`, a bar with
`low = 85`, `high = 125`: the exit is `SL` at 90, not `TARGET_HIT`. -/
theorem c2_stop_loss_precedence_witness :
    findBar posZ.price_df 5 = some barSL
    ∧ barSL.low ≤ posZ.stop_loss
    ∧ posZ.target ≤ barSL.high
    ∧ checkExit posZ 5 = (some ((90 : ℚ), ExitReason.SL), posZ) := by
  have hbar : findBar posZ.price_df 5 = some barSL := by with_unfolding_all rfl
  have hlow : barSL.low ≤ posZ.stop_loss := of_decide_eq_true (by with_unfolding_all rfl)
  have hhigh : posZ.target ≤ barSL.high := of_decide_eq_true (by with_unfolding_all rfl)
  exact ⟨hbar, hlow, hhigh, c2_stop_loss_precedence posZ 5 barSL hbar hlow⟩

/-- C7: a position whose target was never hit, on a day whose bar fires
neither the stop (`¬ low ≤ stop_loss`) nor the target
(`¬ target ≤ high`), exits at the day's low with reason `NO_TARGET` as
soon as `days_held = today - entry_date` reaches
`EXIT_NO_TARGET_DAYS = 40` calendar days. -/
theorem c7_no_target_exit (pos : Position) (today : ℤ) (row : Bar)
    (hbar : findBar pos.price_df today = some row)
    (hhit : pos.hit = false)
    (hsl : ¬ row.low ≤ pos.stop_loss)
    (htg : ¬ pos.target ≤ row.high)
    (hdays : EXIT_NO_TARGET_DAYS ≤ today - pos.entry_date) :
    checkExit pos today = (some (row.low, ExitReason.NO_TARGET), pos) := by
  unfold checkExit
  rw [hbar]
  simp [hsl, htg, hhit, hdays]

def barN : Bar := { date := 40, open_ := 100, high := 110, low := 95, close := 100 }

def posN : Position :=
  { symbol := "N", entry_date := 0, entry_price := 100, stop_loss := 90,
    target := 120, qty := 10, hit := false, price_df := [barN] }

/-- Witness for C7: with the 40-day threshold, day 40 (neither stop nor
target on the bar) forces the `NO_TARGET` exit at the day's low. -/
theorem c7_no_target_exit_witness :
    findBar posN.price_df 40 = some barN
    ∧ posN.hit = false
    ∧ ¬ barN.low ≤ posN.stop_loss
    ∧ ¬ posN.target ≤ barN.high
    ∧ EXIT_NO_TARGET_DAYS ≤ (40 : ℤ) - posN.entry_date
    ∧ checkExit posN 40 = (some ((95 : ℚ), ExitReason.NO_TARGET), posN) := by
  have hbar : findBar posN.price_df 40 = some barN := by with_unfolding_all rfl
  have hsl : ¬ barN.low ≤ posN.stop_loss := of_decide_eq_false (by with_unfolding_all rfl)
  have htg : ¬ posN.target ≤ barN.high := of_decide_eq_false (by with_unfolding_all rfl)
  have hdays : EXIT_NO_TARGET_DAYS ≤ (40 : ℤ) - posN.entry_date :=
    of_decide_eq_true (by with_unfolding_all rfl)
  exact ⟨hbar, rfl, hsl, htg, hdays,
    c7_no_target_exit posN 40 barN hbar rfl hsl htg hdays⟩

/-- C9: a calendar day on which the position's instrument has no bar is a
no-op for that position: the evaluation fires no exit and returns the
position unchanged, and the driver's exit bookkeeping leaves capital,
ledger and all counters untouched, merely carrying the position
forward. -/
theorem c9_missing_bar_noop (today : ℤ) (acc : SimState) (pos : Position)
    (h : findBar pos.price_df today = none) :
    checkExit pos today = (none, pos)
    ∧ exitStep today acc pos
        = { acc with open_positions := acc.open_positions ++ [pos] } := by
  have h1 : checkExit pos today = (none, pos) := by
    unfold checkExit
    rw [h]
  refine ⟨h1, ?_⟩
  unfold exitStep
  rw [h1]

/-- Witness for C9: the date-3 evaluation of a position whose frame has
no date-3 bar. -/
theorem c9_missing_bar_noop_witness :
    findBar posZ.price_df 3 = none
    ∧ checkExit posZ 3 = (none, posZ)
    ∧ exitStep 3 initState posZ
        = { initState with open_positions := initState.open_positions ++ [posZ] } := by
  have h : findBar posZ.price_df 3 = none := by with_unfolding_all rfl
  have h2 := c9_missing_bar_noop 3 initState posZ h
  exact ⟨h, h2.1, h2.2⟩

/-! ### Case analysis of the driver's step functions -/

lemma checkExit_none_snd {pos : Position} {d : ℤ} {q : Position}
    (h : checkExit pos d = (none, q)) : q = pos := by
  unfold checkExit at h
  rcases hf : findBar pos.price_df d with _ | row
  · rw [hf] at h
    simp only [Prod.mk.injEq] at h
    exact h.2.symm
  · rw [hf] at h
    dsimp only at h
    split_ifs at h <;> simp only [Prod.mk.injEq] at h
    · exact absurd h.1 (by simp)
    · exact absurd h.1 (by simp)
    · exact absurd h.1 (by simp)
    · exact h.2.symm

/-- One exit-pass step either carries the position forward unchanged, or
closes it: one more exited trade, one more ledger row, the open list
untouched, and the entry/skip counters untouched. -/
lemma exitStep_cases (d : ℤ) (acc : SimState) (pos : Position) :
    exitStep d acc pos = { acc with open_positions := acc.open_positions ++ [pos] }
    ∨ ((exitStep d acc pos).open_positions = acc.open_positions
        ∧ (exitStep d acc pos).trades_exited = acc.trades_exited + 1
        ∧ (exitStep d acc pos).completed.length = acc.completed.length + 1
        ∧ (exitStep d acc pos).trades_entered = acc.trades_entered
        ∧ (exitStep d acc pos).skips_already_holded = acc.skips_already_holded
        ∧ (exitStep d acc pos).skips_no_cap = acc.skips_no_cap) := by
  rcases hc : checkExit pos d with ⟨e, pos'⟩
  cases e with
  | none =>
    left
    have heq := checkExit_none_snd hc
    subst heq
    unfold exitStep
    rw [hc]
  | some pr =>
    right
    rcases pr with ⟨price, reason⟩
    unfold exitStep
    rw [hc]
    dsimp only
    exact ⟨rfl, rfl, by simp [List.length_append], rfl, rfl, rfl⟩

/-- The ledger rows appended by one exit-pass step, explicitly. -/
lemma exitStep_completed (d : ℤ) (acc : SimState) (pos : Position) :
    (exitStep d acc pos).completed = acc.completed
    ∨ ∃ price reason pos', checkExit pos d = (some (price, reason), pos')
        ∧ (exitStep d acc pos).completed = acc.completed ++
          [{ symbol := pos'.symbol, entry_date := pos'.entry_date, exit_date := d,
             entry_price := pos'.entry_price, exit_price := price, qty := pos'.qty,
             reason := reason,
             charges := round2 (calculate_charges (pos'.entry_price * (pos'.qty : ℚ))
               (price * (pos'.qty : ℚ))),
             pnl := round2 (price * (pos'.qty : ℚ) - pos'.entry_price * (pos'.qty : ℚ)
               - calculate_charges (pos'.entry_price * (pos'.qty : ℚ))
                 (price * (pos'.qty : ℚ))),
             holding_days := d - pos'.entry_date }] := by
  rcases hc : checkExit pos d with ⟨e, pos'⟩
  cases e with
  | none =>
    left
    unfold exitStep
    rw [hc]
  | some pr =>
    right
    rcases pr with ⟨price, reason⟩
    refine ⟨price, reason, pos', rfl, ?_⟩
    unfold exitStep
    rw [hc]

/-- One entry-pass step either bumps one of the two skip counters (and
changes nothing else), or — when the duplicate-symbol check passed —
opens one freshly created (`hit = false`) position for the signal's
symbol, deducting its cost. -/
lemma entryStep_cases (d : ℤ) (pd : String → List Bar) (st : SimState) (call : Signal) :
    entryStep d pd st call = { st with skips_already_holded := st.skips_already_holded + 1 }
    ∨ entryStep d pd st call = { st with skips_no_cap := st.skips_no_cap + 1 }
    ∨ ((st.open_positions.any fun p => p.symbol == call.symbol) = false
        ∧ ∃ p0 : Position,
            entryStep d pd st call = { st with
              capital := st.capital - call.entry_price * (p0.qty : ℚ),
              open_positions := st.open_positions ++ [p0],
              trades_entered := st.trades_entered + 1 }
            ∧ p0.symbol = call.symbol ∧ p0.hit = false) := by
  simp only [entryStep]
  split_ifs with h1 h2 h3 h4
  · left; rfl
  · right; left; rfl
  · right; right
    refine ⟨by simp_all, ?_⟩
    refine ⟨{ symbol := call.symbol, entry_date := d, entry_price := call.entry_price,
              stop_loss := call.stop_loss, target := call.target,
              qty := (⌊MAX_RISK_PER_TRADE / (call.entry_price - call.stop_loss)⌋).toNat,
              hit := false,
              price_df := (pd call.instrument_key).filter fun b => decide (d ≤ b.date) },
           rfl, rfl, rfl⟩
  · right; left; rfl
  · exact absurd (Or.inl (by norm_num)) h4

/-! ### Invariants of the open-position set -/

lemma exitFold_hit (d : ℤ) :
    ∀ (l : List Position) (acc : SimState),
      (∀ p ∈ acc.open_positions, p.hit = false) → (∀ p ∈ l, p.hit = false) →
      ∀ p ∈ (l.foldl (exitStep d) acc).open_positions, p.hit = false := by
  intro l
  induction l with
  | nil => intro acc h1 _; simpa using h1
  | cons q l ih =>
    intro acc h1 h2
    simp only [List.foldl_cons]
    rcases exitStep_cases d acc q with hc | hc
    · refine ih _ ?_ fun p hp => h2 p (List.mem_cons_of_mem _ hp)
      rw [hc]
      intro p hp
      rcases List.mem_append.mp hp with hp | hp
      · exact h1 p hp
      · rcases List.mem_singleton.mp hp with rfl
        exact h2 _ (List.mem_cons_self _ _)
    · refine ih _ ?_ fun p hp => h2 p (List.mem_cons_of_mem _ hp)
      rw [hc.1]
      exact h1

lemma entryFold_hit (d : ℤ) (pd : String → List Bar) :
    ∀ (cs : List Signal) (st : SimState),
      (∀ p ∈ st.open_positions, p.hit = false) →
      ∀ p ∈ (cs.foldl (entryStep d pd) st).open_positions, p.hit = false := by
  intro cs
  induction cs with
  | nil => intro st h; simpa using h
  | cons c cs ih =>
    intro st h
    simp only [List.foldl_cons]
    rcases entryStep_cases d pd st c with hc | hc | ⟨-, p0, hc, -, hhit0⟩
    · refine ih _ ?_
      rw [hc]
      exact h
    · refine ih _ ?_
      rw [hc]
      exact h
    · refine ih _ ?_
      rw [hc]
      intro p hp
      rcases List.mem_append.mp hp with hp | hp
      · exact h p hp
      · rcases List.mem_singleton.mp hp with rfl
        exact hhit0

lemma dayStep_hit (signals : List Signal) (pd : String → List Bar)
    (st : SimState) (d : ℤ) (h : ∀ p ∈ st.open_positions, p.hit = false) :
    ∀ p ∈ (dayStep signals pd st d).open_positions, p.hit = false := by
  unfold dayStep
  refine entryFold_hit d pd _ _ ?_
  unfold exitPass
  refine exitFold_hit d _ _ ?_ h
  intro p hp
  exact absurd hp (List.not_mem_nil p)

lemma calendarFold_hit (signals : List Signal) (pd : String → List Bar) :
    ∀ (D : List ℤ) (st : SimState),
      (∀ p ∈ st.open_positions, p.hit = false) →
      ∀ p ∈ (D.foldl (dayStep signals pd) st).open_positions, p.hit = false := by
  intro D
  induction D with
  | nil => intro st h; simpa using h
  | cons d D ih =>
    intro st h
    simp only [List.foldl_cons]
    exact ih _ (dayStep_hit signals pd st d h)

lemma exitFold_syms (d : ℤ) :
    ∀ (l : List Position) (acc : SimState),
      ((acc.open_positions ++ l).Pairwise fun p q => p.symbol ≠ q.symbol) →
      ((l.foldl (exitStep d) acc).open_positions.Pairwise fun p q => p.symbol ≠ q.symbol) := by
  intro l
  induction l with
  | nil => intro acc h; simpa using h
  | cons q l ih =>
    intro acc h
    simp only [List.foldl_cons]
    rcases exitStep_cases d acc q with hc | hc
    · refine ih _ ?_
      rw [hc]
      simpa [List.append_assoc] using h
    · refine ih _ ?_
      rw [hc.1]
      exact h.sublist (List.Sublist.append_left (List.sublist_cons_self q l) _)

lemma entryFold_syms (d : ℤ) (pd : String → List Bar) :
    ∀ (cs : List Signal) (st : SimState),
      (st.open_positions.Pairwise fun p q => p.symbol ≠ q.symbol) →
      ((cs.foldl (entryStep d pd) st).open_positions.Pairwise fun p q => p.symbol ≠ q.symbol) := by
  intro cs
  induction cs with
  | nil => intro st h; simpa using h
  | cons c cs ih =>
    intro st h
    simp only [List.foldl_cons]
    rcases entryStep_cases d pd st c with hc | hc | ⟨hany, p0, hc, hsym0, -⟩
    · refine ih _ ?_
      rw [hc]
      exact h
    · refine ih _ ?_
      rw [hc]
      exact h
    · refine ih _ ?_
      rw [hc]
      rw [List.pairwise_append]
      refine ⟨h, List.pairwise_singleton _ _, ?_⟩
      intro a ha b hb
      rcases List.mem_singleton.mp hb with rfl
      rw [hsym0]
      have := List.any_eq_false.mp hany a ha
      simpa using this

lemma dayStep_syms (signals : List Signal) (pd : String → List Bar)
    (st : SimState) (d : ℤ)
    (h : st.open_positions.Pairwise fun p q => p.symbol ≠ q.symbol) :
    (dayStep signals pd st d).open_positions.Pairwise fun p q => p.symbol ≠ q.symbol := by
  unfold dayStep
  refine entryFold_syms d pd _ _ ?_
  unfold exitPass
  refine exitFold_syms d _ _ ?_
  simpa using h

lemma calendarFold_syms (signals : List Signal) (pd : String → List Bar) :
    ∀ (D : List ℤ) (st : SimState),
      (st.open_positions.Pairwise fun p q => p.symbol ≠ q.symbol) →
      ((D.foldl (dayStep signals pd) st).open_positions.Pairwise
        fun p q => p.symbol ≠ q.symbol) := by
  intro D
  induction D with
  | nil => intro st h; simpa using h
  | cons d D ih =>
    intro st h
    simp only [List.foldl_cons]
    exact ih _ (dayStep_syms signals pd st d h)

/-! ### Concrete simulation inputs -/

def sigX : Signal :=
  { symbol := "X", instrument_key := "KX", signal_date := -3, entry_date := 0,
    entry_price := 100, stop_loss := 90, target := 120 }

def pdEmpty : String → List Bar := fun _ => []

/-- The position the driver opens for `sigX` on day 0:
`qty = int(4000 / 10) = 400`. -/
def posX : Position :=
  { symbol := "X", entry_date := 0, entry_price := 100, stop_loss := 90,
    target := 120, qty := 400, hit := false, price_df := [] }

def barT : Bar := { date := 7, open_ := 100, high := 125, low := 95, close := 124 }

def posT : Position :=
  { symbol := "T", entry_date := 0, entry_price := 100, stop_loss := 90,
    target := 120, qty := 10, hit := false, price_df := [barT] }

/-! ### Claim C10 -/

/-- C10 (invariant left implicit by the spec): every position in the
driver's open set carries `hit = false` at the start of each day —
positions are created with `hit = false`, and the only statement that
sets `hit := true` (backtest.py line 77) lies in the branch that also
fires the TARGET exit (line 84), so the flag never persists to a later
day and the `not pos.get('hit')` guards are never exercised with a true
flag. -/
theorem c10_hit_flag_invariant (signals : List Signal) (pd : String → List Bar)
    (D : List ℤ) (pos : Position)
    (hmem : pos ∈ (D.foldl (dayStep signals pd) initState).open_positions) :
    pos.hit = false
    ∧ ∀ (p : Position) (d : ℤ) (row : Bar),
        findBar p.price_df d = some row → p.hit = false →
        ¬ row.low ≤ p.stop_loss → p.target ≤ row.high →
        checkExit p d = (some (p.target, ExitReason.TARGET_HIT), { p with hit := true }) := by
  constructor
  · refine calendarFold_hit signals pd D initState ?_ pos hmem
    intro p hp
    exact absurd hp (List.not_mem_nil p)
  · intro p d row hbar hhit hsl htg
    unfold checkExit
    rw [hbar]
    simp [hsl, htg, hhit]

/-- Witness for C10: after one simulated day the open set is `[posX]`
with `hit = false`, and a bar reaching the target both sets the flag and
closes the position in the same evaluation. -/
theorem c10_hit_flag_invariant_witness :
    (posX ∈ (([0] : List ℤ).foldl (dayStep [sigX] pdEmpty) initState).open_positions)
    ∧ posX.hit = false
    ∧ checkExit posT 7 = (some (posT.target, ExitReason.TARGET_HIT), { posT with hit := true }) := by
  have hopen : (([0] : List ℤ).foldl (dayStep [sigX] pdEmpty) initState).open_positions
      = [posX] := by
    with_unfolding_all rfl
  have hmem : posX ∈ (([0] : List ℤ).foldl (dayStep [sigX] pdEmpty) initState).open_positions := by
    rw [hopen]
    exact List.mem_singleton_self _
  have h := c10_hit_flag_invariant [sigX] pdEmpty [0] posX hmem
  refine ⟨hmem, h.1, ?_⟩
  have hbar : findBar posT.price_df 7 = some barT := by with_unfolding_all rfl
  have hsl : ¬ barT.low ≤ posT.stop_loss := of_decide_eq_false (by with_unfolding_all rfl)
  have htg : posT.target ≤ barT.high := of_decide_eq_true (by with_unfolding_all rfl)
  exact h.2 posT 7 barT hbar rfl hsl htg

/-! ### Claim C4 -/

/-- C4: at every point of a run the open set holds at most one position
per symbol (the symbols are pairwise distinct), because an entry signal
for a symbol that is already held is rejected — the duplicate-symbol
check bumps `skips_already_holded` and changes nothing else in the
state. -/
theorem c4_one_position_per_symbol (signals : List Signal) (pd : String → List Bar)
    (D : List ℤ) :
    ((D.foldl (dayStep signals pd) initState).open_positions.Pairwise
      fun p q => p.symbol ≠ q.symbol)
    ∧ ∀ (today : ℤ) (st : SimState) (call : Signal),
        (st.open_positions.any fun p => p.symbol == call.symbol) = true →
        entryStep today pd st call
          = { st with skips_already_holded := st.skips_already_holded + 1 } := by
  constructor
  · exact calendarFold_syms signals pd D initState List.Pairwise.nil
  · intro today st call h
    simp [entryStep, h]

def stX : SimState := { initState with open_positions := [posX] }

/-- Witness for C4: the one-day run keeps pairwise-distinct symbols, and
a second signal for the already-held symbol `X` is rejected with only
the duplicate-skip counter bumped. -/
theorem c4_one_position_per_symbol_witness :
    ((([0] : List ℤ).foldl (dayStep [sigX] pdEmpty) initState).open_positions.Pairwise
      fun p q => p.symbol ≠ q.symbol)
    ∧ (stX.open_positions.any fun p => p.symbol == sigX.symbol) = true
    ∧ entryStep 1 pdEmpty stX sigX
        = { stX with skips_already_holded := stX.skips_already_holded + 1 } := by
  have h := c4_one_position_per_symbol [sigX] pdEmpty [0]
  have hany : (stX.open_positions.any fun p => p.symbol == sigX.symbol) = true := by
    with_unfolding_all rfl
  exact ⟨h.1, hany, h.2 1 stX sigX hany⟩

/-! ### Claim C5 -/

/-- C5: for a candidate signal passing the duplicate check,
`risk_per_share = entry_price - stop_loss`; if it is nonpositive the
computed quantity is 0 and the signal is rejected; otherwise
`quantity = ⌊MAX_RISK_PER_TRADE / risk_per_share⌋`, the signal is
rejected when `quantity < 1` or `cost = entry_price * quantity` exceeds
the available capital, and on acceptance exactly `cost` is deducted and
one new position is opened. -/
theorem c5_risk_sizing (today : ℤ) (pd : String → List Bar) (st : SimState)
    (call : Signal)
    (hdup : (st.open_positions.any fun p => p.symbol == call.symbol) = false) :
    (call.entry_price - call.stop_loss ≤ 0 →
      (if 0 < call.entry_price - call.stop_loss
        then (⌊MAX_RISK_PER_TRADE / (call.entry_price - call.stop_loss)⌋).toNat else 0) = 0
      ∧ entryStep today pd st call = { st with skips_no_cap := st.skips_no_cap + 1 })
    ∧ (0 < call.entry_price - call.stop_loss →
        (((⌊MAX_RISK_PER_TRADE / (call.entry_price - call.stop_loss)⌋).toNat < 1
            ∨ st.capital < call.entry_price
              * ((⌊MAX_RISK_PER_TRADE / (call.entry_price - call.stop_loss)⌋).toNat : ℚ)) →
          entryStep today pd st call = { st with skips_no_cap := st.skips_no_cap + 1 })
        ∧ (1 ≤ (⌊MAX_RISK_PER_TRADE / (call.entry_price - call.stop_loss)⌋).toNat →
            call.entry_price
              * ((⌊MAX_RISK_PER_TRADE / (call.entry_price - call.stop_loss)⌋).toNat : ℚ)
              ≤ st.capital →
            entryStep today pd st call = { st with
              capital := st.capital - call.entry_price
                * ((⌊MAX_RISK_PER_TRADE / (call.entry_price - call.stop_loss)⌋).toNat : ℚ),
              open_positions := st.open_positions ++
                [{ symbol := call.symbol, entry_date := today,
                   entry_price := call.entry_price, stop_loss := call.stop_loss,
                   target := call.target,
                   qty := (⌊MAX_RISK_PER_TRADE / (call.entry_price - call.stop_loss)⌋).toNat,
                   hit := false,
                   price_df := (pd call.instrument_key).filter fun b =>
                     decide (today ≤ b.date) }],
              trades_entered := st.trades_entered + 1 })) := by
  constructor
  · intro hrisk
    have hneg : ¬ 0 < call.entry_price - call.stop_loss := not_lt.mpr hrisk
    constructor
    · simp [hneg]
    · simp [entryStep, hdup, hneg]
  · intro hpos
    constructor
    · intro hsmall
      simp only [entryStep, hdup, Bool.false_eq_true, if_false, if_pos hpos]
      rw [if_pos hsmall]
    · intro hq hcap
      have hno : ¬ ((⌊MAX_RISK_PER_TRADE / (call.entry_price - call.stop_loss)⌋).toNat < 1
          ∨ st.capital < call.entry_price
            * ((⌊MAX_RISK_PER_TRADE / (call.entry_price - call.stop_loss)⌋).toNat : ℚ)) := by
        push_neg
        exact ⟨hq, hcap⟩
      simp only [entryStep, hdup, Bool.false_eq_true, if_false, if_pos hpos]
      rw [if_neg hno]

/-- Witness for C5: `sigX` (risk 10 per share) on the initial state is
accepted with `quantity = 400` and cost 40000 deducted. -/
theorem c5_risk_sizing_witness :
    ((initState.open_positions.any fun p => p.symbol == sigX.symbol) = false)
    ∧ (0 < sigX.entry_price - sigX.stop_loss)
    ∧ (1 ≤ (⌊MAX_RISK_PER_TRADE / (sigX.entry_price - sigX.stop_loss)⌋).toNat)
    ∧ (sigX.entry_price
        * ((⌊MAX_RISK_PER_TRADE / (sigX.entry_price - sigX.stop_loss)⌋).toNat : ℚ)
        ≤ initState.capital)
    ∧ entryStep 0 pdEmpty initState sigX = { initState with
        capital := initState.capital - sigX.entry_price
          * ((⌊MAX_RISK_PER_TRADE / (sigX.entry_price - sigX.stop_loss)⌋).toNat : ℚ),
        open_positions := initState.open_positions ++
          [{ symbol := sigX.symbol, entry_date := 0,
             entry_price := sigX.entry_price, stop_loss := sigX.stop_loss,
             target := sigX.target,
             qty := (⌊MAX_RISK_PER_TRADE / (sigX.entry_price - sigX.stop_loss)⌋).toNat,
             hit := false,
             price_df := (pdEmpty sigX.instrument_key).filter fun b =>
               decide ((0:ℤ) ≤ b.date) }],
        trades_entered := initState.trades_entered + 1 } := by
  have hdup : (initState.open_positions.any fun p => p.symbol == sigX.symbol) = false := rfl
  have hpos : 0 < sigX.entry_price - sigX.stop_loss :=
    of_decide_eq_true (by with_unfolding_all rfl)
  have hq : 1 ≤ (⌊MAX_RISK_PER_TRADE / (sigX.entry_price - sigX.stop_loss)⌋).toNat :=
    of_decide_eq_true (by with_unfolding_all rfl)
  have hcap : sigX.entry_price
      * ((⌊MAX_RISK_PER_TRADE / (sigX.entry_price - sigX.stop_loss)⌋).toNat : ℚ)
      ≤ initState.capital :=
    of_decide_eq_true (by with_unfolding_all rfl)
  exact ⟨hdup, hpos, hq, hcap,
    ((c5_risk_sizing 0 pdEmpty initState sigX hdup).2 hpos).2 hq hcap⟩

/-! ### Counter bookkeeping -/

lemma exitStep_counts (d : ℤ) (acc : SimState) (p : Position) :
    (exitStep d acc p).trades_entered = acc.trades_entered
    ∧ (exitStep d acc p).skips_already_holded = acc.skips_already_holded
    ∧ (exitStep d acc p).skips_no_cap = acc.skips_no_cap
    ∧ (exitStep d acc p).trades_exited + (exitStep d acc p).open_positions.length
        = acc.trades_exited + acc.open_positions.length + 1
    ∧ (exitStep d acc p).completed.length + acc.trades_exited
        = acc.completed.length + (exitStep d acc p).trades_exited := by
  rcases exitStep_cases d acc p with hc | hc
  · rw [hc]
    refine ⟨rfl, rfl, rfl, ?_, ?_⟩
    · dsimp only
      simp only [List.length_append, List.length_singleton]
      omega
    · dsimp only
  · obtain ⟨h1, h2, h3, h4, h5, h6⟩ := hc
    rw [h1, h2, h3, h4, h5, h6]
    omega

lemma exitFold_counts (d : ℤ) :
    ∀ (l : List Position) (acc : SimState),
      (l.foldl (exitStep d) acc).trades_entered = acc.trades_entered
      ∧ (l.foldl (exitStep d) acc).skips_already_holded = acc.skips_already_holded
      ∧ (l.foldl (exitStep d) acc).skips_no_cap = acc.skips_no_cap
      ∧ (l.foldl (exitStep d) acc).trades_exited
          + (l.foldl (exitStep d) acc).open_positions.length
          = acc.trades_exited + acc.open_positions.length + l.length
      ∧ (l.foldl (exitStep d) acc).completed.length + acc.trades_exited
          = acc.completed.length + (l.foldl (exitStep d) acc).trades_exited := by
  intro l
  induction l with
  | nil => intro acc; exact ⟨rfl, rfl, rfl, by simp, by simp⟩
  | cons p l ih =>
    intro acc
    simp only [List.foldl_cons, List.length_cons]
    obtain ⟨e1, sa1, sb1, x1, c1⟩ := exitStep_counts d acc p
    obtain ⟨e2, sa2, sb2, x2, c2⟩ := ih (exitStep d acc p)
    exact ⟨e2.trans e1, sa2.trans sa1, sb2.trans sb1, by omega, by omega⟩

lemma entryStep_counts (d : ℤ) (pd : String → List Bar) (st : SimState) (c : Signal) :
    (entryStep d pd st c).trades_exited = st.trades_exited
    ∧ (entryStep d pd st c).completed = st.completed
    ∧ (entryStep d pd st c).trades_entered + (entryStep d pd st c).skips_already_holded
        + (entryStep d pd st c).skips_no_cap
        = st.trades_entered + st.skips_already_holded + st.skips_no_cap + 1
    ∧ (entryStep d pd st c).trades_entered + st.open_positions.length
        = st.trades_entered + (entryStep d pd st c).open_positions.length := by
  rcases entryStep_cases d pd st c with hc | hc | ⟨-, p0, hc, -, -⟩ <;>
    rw [hc] <;> dsimp only <;>
    exact ⟨rfl, rfl, by omega,
      by first
        | rfl
        | (simp only [List.length_append, List.length_singleton]; omega)⟩

lemma entryFold_counts (d : ℤ) (pd : String → List Bar) :
    ∀ (cs : List Signal) (st : SimState),
      (cs.foldl (entryStep d pd) st).trades_exited = st.trades_exited
      ∧ (cs.foldl (entryStep d pd) st).completed = st.completed
      ∧ (cs.foldl (entryStep d pd) st).trades_entered
          + (cs.foldl (entryStep d pd) st).skips_already_holded
          + (cs.foldl (entryStep d pd) st).skips_no_cap
          = st.trades_entered + st.skips_already_holded + st.skips_no_cap + cs.length
      ∧ (cs.foldl (entryStep d pd) st).trades_entered + st.open_positions.length
          = st.trades_entered + (cs.foldl (entryStep d pd) st).open_positions.length := by
  intro cs
  induction cs with
  | nil => intro st; exact ⟨rfl, rfl, by simp, by simp⟩
  | cons c cs ih =>
    intro st
    simp only [List.foldl_cons, List.length_cons]
    obtain ⟨x1, c1, e1, o1⟩ := entryStep_counts d pd st c
    obtain ⟨x2, c2, e2, o2⟩ := ih (entryStep d pd st c)
    refine ⟨x2.trans x1, c2.trans c1, by omega, ?_⟩
    have hlen := congrArg List.length c1
    omega

lemma dayStep_counts (signals : List Signal) (pd : String → List Bar)
    (st : SimState) (d : ℤ) :
    (dayStep signals pd st d).trades_entered
        + (dayStep signals pd st d).skips_already_holded
        + (dayStep signals pd st d).skips_no_cap
        = st.trades_entered + st.skips_already_holded + st.skips_no_cap
          + (signals.filter fun c => decide (c.entry_date = d)).length
    ∧ (dayStep signals pd st d).trades_exited
        + (dayStep signals pd st d).open_positions.length
        + st.trades_entered
        = st.trades_exited + st.open_positions.length
          + (dayStep signals pd st d).trades_entered
    ∧ (dayStep signals pd st d).completed.length + st.trades_exited
        = st.completed.length + (dayStep signals pd st d).trades_exited := by
  unfold dayStep exitPass
  obtain ⟨e1, sa1, sb1, x1, c1⟩ :=
    exitFold_counts d st.open_positions { st with open_positions := [] }
  obtain ⟨x2, c2, e2, o2⟩ := entryFold_counts d pd
    (signals.filter fun c => decide (c.entry_date = d))
    (st.open_positions.foldl (exitStep d) { st with open_positions := [] })
  dsimp only at e1 sa1 sb1 x1 c1
  simp only [List.length_nil] at e1 sa1 sb1 x1 c1
  have hlen := congrArg List.length c2
  refine ⟨by omega, by omega, by omega⟩

lemma length_filter_or {α : Type} (p q r : α → Bool) (l : List α)
    (hr : ∀ a, r a = (p a || q a))
    (hpq : ∀ a, ¬(p a = true ∧ q a = true)) :
    (l.filter r).length = (l.filter p).length + (l.filter q).length := by
  induction l with
  | nil => simp
  | cons a l ih =>
    simp only [List.filter_cons, hr a]
    rcases hp : p a with _ | _ <;> rcases hq : q a with _ | _
    · simp
      omega
    · simp
      omega
    · simp
      omega
    · exact absurd ⟨hp, hq⟩ (hpq a)

lemma length_filter_entry_cons (signals : List Signal) (d : ℤ) (D : List ℤ)
    (hd : d ∉ D) :
    (signals.filter fun c => decide (c.entry_date ∈ d :: D)).length
      = (signals.filter fun c => decide (c.entry_date = d)).length
        + (signals.filter fun c => decide (c.entry_date ∈ D)).length := by
  refine length_filter_or _ _ _ signals (fun a => ?_) (fun a => ?_)
  · simp [List.mem_cons]
  · intro h
    rcases h with ⟨h1, h2⟩
    simp only [decide_eq_true_eq] at h1 h2
    exact hd (h1 ▸ h2)

lemma calendarFold_counts (signals : List Signal) (pd : String → List Bar) :
    ∀ (D : List ℤ) (st : SimState), D.Nodup →
      (D.foldl (dayStep signals pd) st).trades_entered
          + (D.foldl (dayStep signals pd) st).skips_already_holded
          + (D.foldl (dayStep signals pd) st).skips_no_cap
          = st.trades_entered + st.skips_already_holded + st.skips_no_cap
            + (signals.filter fun c => decide (c.entry_date ∈ D)).length
      ∧ (D.foldl (dayStep signals pd) st).trades_exited
          + (D.foldl (dayStep signals pd) st).open_positions.length
          + st.trades_entered
          = st.trades_exited + st.open_positions.length
            + (D.foldl (dayStep signals pd) st).trades_entered
      ∧ (D.foldl (dayStep signals pd) st).completed.length + st.trades_exited
          = st.completed.length + (D.foldl (dayStep signals pd) st).trades_exited := by
  intro D
  induction D with
  | nil => intro st _; exact ⟨by simp, by simp, by simp⟩
  | cons d D ih =>
    intro st hnd
    rcases List.nodup_cons.mp hnd with ⟨hd, hnd'⟩
    simp only [List.foldl_cons]
    obtain ⟨e1, x1, c1⟩ := dayStep_counts signals pd st d
    obtain ⟨e2, x2, c2⟩ := ih (dayStep signals pd st d) hnd'
    rw [length_filter_entry_cons signals d D hd]
    exact ⟨by omega, by omega, by omega⟩

lemma forceExitStep_counts (fd : ℤ) (acc : SimState) (p : Position) :
    (forceExitStep fd acc p).trades_entered = acc.trades_entered
    ∧ (forceExitStep fd acc p).skips_already_holded = acc.skips_already_holded
    ∧ (forceExitStep fd acc p).skips_no_cap = acc.skips_no_cap
    ∧ (forceExitStep fd acc p).trades_exited = acc.trades_exited + 1
    ∧ (forceExitStep fd acc p).completed.length = acc.completed.length + 1 := by
  unfold forceExitStep
  dsimp only
  exact ⟨rfl, rfl, rfl, rfl, by rw [List.length_append]; rfl⟩

lemma forceFold_counts (fd : ℤ) :
    ∀ (l : List Position) (acc : SimState),
      (l.foldl (forceExitStep fd) acc).trades_entered = acc.trades_entered
      ∧ (l.foldl (forceExitStep fd) acc).skips_already_holded = acc.skips_already_holded
      ∧ (l.foldl (forceExitStep fd) acc).skips_no_cap = acc.skips_no_cap
      ∧ (l.foldl (forceExitStep fd) acc).trades_exited = acc.trades_exited + l.length
      ∧ (l.foldl (forceExitStep fd) acc).completed.length
          = acc.completed.length + l.length := by
  intro l
  induction l with
  | nil => intro acc; exact ⟨rfl, rfl, rfl, by simp, by simp⟩
  | cons p l ih =>
    intro acc
    simp only [List.foldl_cons, List.length_cons]
    obtain ⟨e1, sa1, sb1, x1, c1⟩ := forceExitStep_counts fd acc p
    obtain ⟨e2, sa2, sb2, x2, c2⟩ := ih (forceExitStep fd acc p)
    exact ⟨e2.trans e1, sa2.trans sa1, sb2.trans sb1, by omega, by omega⟩

lemma bdateRange_nodup (s e : ℤ) : (bdateRange s e).Nodup := by
  unfold bdateRange
  refine List.Nodup.filter _ (List.Nodup.map ?_ (List.nodup_range _))
  intro a b hab
  simp only at hab
  omega

lemma tradeCalendar_nodup (signals : List Signal) : (tradeCalendar signals).Nodup :=
  bdateRange_nodup _ _

/-! ### Claim C3 -/

/-- C3 (amended): at the end of a run (assuming price data reaches each
signal's entry date, so the source's `df.iloc[-1]` force-exit lookup
cannot raise), `entered + (skipped_duplicate + skipped_risk_or_capital)`
equals the number of signal rows whose `entry_date` lies **in the
trading calendar** (business days between the earliest and latest entry
date plus the lookahead) — not the full row count, because a signal
whose `entry_date` falls on a weekend is silently never processed — and
`exited = entered` and the ledger holds exactly one record per entry
(force exits included). -/
theorem c3_counter_reconciliation (signals : List Signal) (pd : String → List Bar)
    (hdata : ∀ c ∈ signals, ∃ b ∈ pd c.instrument_key, c.entry_date ≤ b.date) :
    (runBacktest signals pd).trades_entered
        + ((runBacktest signals pd).skips_already_holded
          + (runBacktest signals pd).skips_no_cap)
      = (signals.filter fun c => decide (c.entry_date ∈ tradeCalendar signals)).length
    ∧ (runBacktest signals pd).trades_exited = (runBacktest signals pd).trades_entered
    ∧ (runBacktest signals pd).completed.length
        = (runBacktest signals pd).trades_entered := by
  have hrb : runBacktest signals pd
      = ((tradeCalendar signals).foldl (dayStep signals pd) initState).open_positions.foldl
          (forceExitStep ((tradeCalendar signals).getLastD 0))
          ((tradeCalendar signals).foldl (dayStep signals pd) initState) := rfl
  rw [hrb]
  obtain ⟨e1, x1, c1⟩ :=
    calendarFold_counts signals pd (tradeCalendar signals) initState
      (tradeCalendar_nodup signals)
  obtain ⟨e2, sa2, sb2, x2, c2⟩ := forceFold_counts ((tradeCalendar signals).getLastD 0)
    ((tradeCalendar signals).foldl (dayStep signals pd) initState).open_positions
    ((tradeCalendar signals).foldl (dayStep signals pd) initState)
  have i1 : initState.trades_entered = 0 := rfl
  have i2 : initState.skips_already_holded = 0 := rfl
  have i3 : initState.skips_no_cap = 0 := rfl
  have i4 : initState.trades_exited = 0 := rfl
  have i5 : initState.open_positions.length = 0 := rfl
  have i6 : initState.completed.length = 0 := rfl
  exact ⟨by omega, by omega, by omega⟩

def sigY : Signal :=
  { symbol := "Y", instrument_key := "KY", signal_date := -3, entry_date := 0,
    entry_price := 100, stop_loss := 90, target := 120 }

def barY0 : Bar := { date := 0, open_ := 100, high := 101, low := 95, close := 100 }

def barY1 : Bar := { date := 1, open_ := 99, high := 99, low := 85, close := 90 }

def pdY : String → List Bar := fun _ => [barY0, barY1]

/-- Witness for C3 (amended): a one-signal run that enters on day 0 and
is stopped out on day 1; all counters reconcile. -/
theorem c3_counter_reconciliation_witness :
    (∀ c ∈ [sigY], ∃ b ∈ pdY c.instrument_key, c.entry_date ≤ b.date)
    ∧ (runBacktest [sigY] pdY).trades_entered
        + ((runBacktest [sigY] pdY).skips_already_holded
          + (runBacktest [sigY] pdY).skips_no_cap)
      = ([sigY].filter fun c => decide (c.entry_date ∈ tradeCalendar [sigY])).length
    ∧ (runBacktest [sigY] pdY).trades_exited = (runBacktest [sigY] pdY).trades_entered
    ∧ (runBacktest [sigY] pdY).completed.length
        = (runBacktest [sigY] pdY).trades_entered := by
  have hdata : ∀ c ∈ [sigY], ∃ b ∈ pdY c.instrument_key, c.entry_date ≤ b.date := by
    intro c hc
    rcases List.mem_singleton.mp hc with rfl
    exact ⟨barY0, List.mem_cons_self _ _, by decide⟩
  have h := c3_counter_reconciliation [sigY] pdY hdata
  exact ⟨hdata, h.1, h.2.1, h.2.2⟩

def sigSat : Signal :=
  { symbol := "S", instrument_key := "KS", signal_date := 4, entry_date := 5,
    entry_price := 100, stop_loss := 90, target := 120 }

/-- C3, counterexample to the claim as stated: a signal whose
`entry_date` is a Saturday (day 5 of the Monday-epoch week) is never
visited by the business-day calendar, so it is neither entered nor
counted in any skip counter: the run ends with
`entered + skipped = 0 ≠ 1 = total_signals`.  (The Python run completes
normally on this input: no position is ever opened.) -/
theorem c3_weekend_signal_counterexample :
    ([sigSat].length = 1)
    ∧ isBDay sigSat.entry_date = false
    ∧ (runBacktest [sigSat] pdEmpty).trades_entered
        + ((runBacktest [sigSat] pdEmpty).skips_already_holded
          + (runBacktest [sigSat] pdEmpty).skips_no_cap) = 0
    ∧ (runBacktest [sigSat] pdEmpty).trades_entered
        + ((runBacktest [sigSat] pdEmpty).skips_already_holded
          + (runBacktest [sigSat] pdEmpty).skips_no_cap) ≠ [sigSat].length := by
  refine ⟨rfl, by with_unfolding_all rfl, ?_, ?_⟩
  · with_unfolding_all rfl
  · exact of_decide_eq_false (by with_unfolding_all rfl)

/-! ### Claim C6 -/

/-- A ledger row is well formed when its persisted `charges` and `pnl`
are the rounded values of the exact cost formula and of
`qty * (exit - entry) - charges` recomputed from its own fields. -/
def WFtr (tr : TradeRecord) : Prop :=
  tr.charges = round2 (calculate_charges (tr.entry_price * (tr.qty : ℚ))
      (tr.exit_price * (tr.qty : ℚ)))
  ∧ tr.pnl = round2 ((tr.qty : ℚ) * (tr.exit_price - tr.entry_price)
      - calculate_charges (tr.entry_price * (tr.qty : ℚ)) (tr.exit_price * (tr.qty : ℚ)))

lemma exitStep_WF {d : ℤ} {acc : SimState} {pos : Position}
    (h : ∀ t ∈ acc.completed, WFtr t) :
    ∀ t ∈ (exitStep d acc pos).completed, WFtr t := by
  rcases exitStep_completed d acc pos with hc | ⟨price, reason, pos', -, hc⟩
  · rw [hc]
    exact h
  · rw [hc]
    intro t ht
    rcases List.mem_append.mp ht with h1 | h1
    · exact h t h1
    · rcases List.mem_singleton.mp h1 with rfl
      constructor
      · rfl
      · exact congrArg round2 (by ring)

lemma exitFold_WF (d : ℤ) :
    ∀ (l : List Position) (acc : SimState),
      (∀ t ∈ acc.completed, WFtr t) →
      ∀ t ∈ (l.foldl (exitStep d) acc).completed, WFtr t := by
  intro l
  induction l with
  | nil => intro acc h; simpa using h
  | cons p l ih =>
    intro acc h
    simp only [List.foldl_cons]
    exact ih _ (exitStep_WF h)

lemma dayStep_WF (signals : List Signal) (pd : String → List Bar)
    (st : SimState) (d : ℤ) (h : ∀ t ∈ st.completed, WFtr t) :
    ∀ t ∈ (dayStep signals pd st d).completed, WFtr t := by
  unfold dayStep exitPass
  have hc := (entryFold_counts d pd (signals.filter fun c => decide (c.entry_date = d))
    (st.open_positions.foldl (exitStep d) { st with open_positions := [] })).2.1
  rw [hc]
  exact exitFold_WF d st.open_positions _ h

lemma calendarFold_WF (signals : List Signal) (pd : String → List Bar) :
    ∀ (D : List ℤ) (st : SimState), (∀ t ∈ st.completed, WFtr t) →
      ∀ t ∈ (D.foldl (dayStep signals pd) st).completed, WFtr t := by
  intro D
  induction D with
  | nil => intro st h; simpa using h
  | cons d D ih =>
    intro st h
    simp only [List.foldl_cons]
    exact ih _ (dayStep_WF signals pd st d h)

lemma forceExitStep_WF {fd : ℤ} {acc : SimState} {p : Position}
    (h : ∀ t ∈ acc.completed, WFtr t) :
    ∀ t ∈ (forceExitStep fd acc p).completed, WFtr t := by
  intro t ht
  unfold forceExitStep at ht
  dsimp only at ht
  rcases List.mem_append.mp ht with h1 | h1
  · exact h t h1
  · rcases List.mem_singleton.mp h1 with rfl
    constructor
    · rfl
    · exact congrArg round2 (by ring)

lemma forceFold_WF (fd : ℤ) :
    ∀ (l : List Position) (acc : SimState),
      (∀ t ∈ acc.completed, WFtr t) →
      ∀ t ∈ (l.foldl (forceExitStep fd) acc).completed, WFtr t := by
  intro l
  induction l with
  | nil => intro acc h; simpa using h
  | cons p l ih =>
    intro acc h
    simp only [List.foldl_cons]
    exact ih _ (forceExitStep_WF h)

/-- C6: every row of the completed-trades ledger — rule-based and forced
exits alike — satisfies
`charges = round2 (stamp_rate * buy + stt_rate * (buy + sell) + fixed_fee)`
and `pnl = round2 (qty * (exit_price - entry_price) - charges_unrounded)`
with `buy = entry_price * qty`, `sell = exit_price * qty`; rounding to
two decimals happens only in the persisted record (the capital update at
backtest.py lines 118/190 uses the unrounded values). -/
theorem c6_charges_pnl (signals : List Signal) (pd : String → List Bar)
    (tr : TradeRecord) (h : tr ∈ (runBacktest signals pd).completed) :
    tr.charges = round2 (calculate_charges (tr.entry_price * (tr.qty : ℚ))
        (tr.exit_price * (tr.qty : ℚ)))
    ∧ tr.pnl = round2 ((tr.qty : ℚ) * (tr.exit_price - tr.entry_price)
        - calculate_charges (tr.entry_price * (tr.qty : ℚ))
          (tr.exit_price * (tr.qty : ℚ))) := by
  have hrb : runBacktest signals pd
      = ((tradeCalendar signals).foldl (dayStep signals pd) initState).open_positions.foldl
          (forceExitStep ((tradeCalendar signals).getLastD 0))
          ((tradeCalendar signals).foldl (dayStep signals pd) initState) := rfl
  rw [hrb] at h
  refine forceFold_WF _ _ _ (calendarFold_WF signals pd _ initState ?_) tr h
  intro t ht
  exact absurd ht (List.not_mem_nil t)

/-- The one ledger row of the `sigY`/`pdY` run: stop-loss exit at 90,
charges `96.75`, pnl `-4096.75`. -/
def trY : TradeRecord :=
  { symbol := "Y", entry_date := 0, exit_date := 1, entry_price := 100,
    exit_price := 90, qty := 400, reason := ExitReason.SL,
    charges := 387/4, pnl := -16387/4, holding_days := 1 }

/-- Witness for C6 on the concrete `sigY`/`pdY` run. -/
theorem c6_charges_pnl_witness :
    trY ∈ (runBacktest [sigY] pdY).completed
    ∧ trY.charges = round2 (calculate_charges (trY.entry_price * (trY.qty : ℚ))
        (trY.exit_price * (trY.qty : ℚ)))
    ∧ trY.pnl = round2 ((trY.qty : ℚ) * (trY.exit_price - trY.entry_price)
        - calculate_charges (trY.entry_price * (trY.qty : ℚ))
          (trY.exit_price * (trY.qty : ℚ))) := by
  have hcomp : (runBacktest [sigY] pdY).completed = [trY] := by with_unfolding_all rfl
  have hmem : trY ∈ (runBacktest [sigY] pdY).completed := by
    rw [hcomp]
    exact List.mem_singleton_self _
  have h := c6_charges_pnl [sigY] pdY trY hmem
  exact ⟨hmem, h.1, h.2⟩

end FortyFourMA
